import Mathlib

/-!
Verification of the news-scraper credibility-scoring pipeline against its
specification.  The visible repository code is the Next.js UI
(`web/src/app/page.tsx`, `web/src/app/check/page.tsx`, the `BiasHeatmap`
component and the feed page); those parts are embedded directly from the
TypeScript source.  The scoring core (sentence splitter, heuristic scorer,
ML classifier wrapper, score blender, inference driver — the Python
`scraper_step3_score.py`, `ml/` and `api/` files) is not part of the
visible sources, so it is modelled from the specification text, as marked
on each such definition.
-/

set_option maxRecDepth 20000

namespace NewsScraper

/-! ## Character-level text utilities -/

/-- Whitespace test used throughout the text pipeline. -/
def isWsChar (c : Char) : Bool := c.isWhitespace

/-- Remove leading and trailing whitespace from a character list.
This models `str.strip()` / JavaScript `String.prototype.trim`. -/
def trimChars (l : List Char) : List Char :=
  ((l.dropWhile isWsChar).reverse.dropWhile isWsChar).reverse

/-- Modelled from the spec: `word_count` counts "whitespace-delimited
tokens" (§3); the Python scorer that computes it is not under `src/`.
`tokensAux cur l` splits `l` into maximal runs of non-whitespace
characters, with `cur` the (reversed) token currently being read. -/
def tokensAux (cur : List Char) : List Char → List (List Char)
  | [] => if cur.isEmpty then [] else [cur.reverse]
  | c :: rest =>
      if isWsChar c then
        if cur.isEmpty then tokensAux [] rest
        else cur.reverse :: tokensAux [] rest
      else tokensAux (c :: cur) rest

/-- Modelled from the spec: the number of whitespace-delimited tokens of
`body` (§3); the scorer computing `word_count` is not under `src/`. -/
def wordCount (body : String) : ℕ := (tokensAux [] body.data).length

/-- Count of maximal non-whitespace runs, an independent rendering of the
spec words "number of whitespace-delimited tokens".  The boolean argument
records whether the previous character was whitespace (or start of text). -/
def countRuns (prevWs : Bool) : List Char → ℕ
  | [] => 0
  | c :: rest =>
      (if !isWsChar c && prevWs then 1 else 0) + countRuns (isWsChar c) rest

theorem tokensAux_length (l : List Char) :
    ∀ cur : List Char,
      (tokensAux cur l).length = (if cur.isEmpty then 0 else 1) + countRuns cur.isEmpty l := by
  induction l with
  | nil =>
      intro cur
      cases cur <;> simp [tokensAux, countRuns]
  | cons c rest ih =>
      intro cur
      cases cur with
      | nil =>
          by_cases hc : isWsChar c
          · simp [tokensAux, countRuns, hc, ih []]
          · simpa [tokensAux, countRuns, hc] using ih [c]
      | cons d ds =>
          by_cases hc : isWsChar c
          · simp [tokensAux, countRuns, hc, ih [], Nat.add_comm]
          · simpa [tokensAux, countRuns, hc] using ih (c :: d :: ds)

theorem wordCount_eq_countRuns (body : String) :
    wordCount body = countRuns true body.data := by
  simpa [wordCount] using tokensAux_length body.data []

/-- The example article body used by the specification's test scenario. -/
def exampleBody : String :=
  "Officials announced a plan. Critics called it a disaster and a scam, scam, scam!"

/-! ## Sentence splitter (spec §4.1) -/

/-- Sentence-final punctuation recognised by the splitter. -/
def isTerm (c : Char) : Bool := c == '.' || c == '!' || c == '?'

/-- Modelled from the spec: the explicit abbreviation exception list of
§4.1 ("an explicit exception list must be maintained"); the Python
splitter is not under `src/`. -/
def abbrevTokens : List (List Char) :=
  [("Mr").data, ("Mrs").data, ("Ms").data, ("Dr").data, ("St").data,
   ("vs").data, ("U.S").data, ("etc").data, ("e.g").data, ("i.e").data,
   ("Jr").data, ("Sr").data, ("Prof").data, ("Inc").data, ("No").data]

/-- The word immediately before the current position, read off the
reversed accumulator of already-consumed characters. -/
def lastTokenRev (accRev : List Char) : List Char :=
  (accRev.takeWhile (fun c => !isWsChar c)).reverse

/-- Does the text after a terminator license a sentence break?  Per §4.1:
end-of-text does, and so does whitespace followed by a capital letter
(or by nothing but whitespace). -/
def breakAfter : List Char → Bool
  | [] => true
  | d :: ds =>
      isWsChar d &&
        (match (d :: ds).dropWhile isWsChar with
         | [] => true
         | e :: _ => e.isUpper)

/-- Modelled from the spec: the splitting loop of §4.1 ("break on
sentence-final punctuation followed by whitespace and a capital letter or
end-of-text, while not breaking on common abbreviations"); the Python
splitter is not under `src/`.  `accRev` holds the reversed characters of
the chunk currently being accumulated. -/
def splitChunksAux (accRev : List Char) : List Char → List (List Char)
  | [] => [accRev.reverse]
  | c :: rest =>
      if isTerm c && breakAfter rest &&
          !(c == '.' && abbrevTokens.contains (lastTokenRev accRev)) then
        (c :: accRev).reverse :: splitChunksAux [] rest
      else splitChunksAux (c :: accRev) rest

/-- Modelled from the spec: the Sentence Splitter contract of §4.1 — a
finite sequence of trimmed, non-empty sentence strings in document order;
the Python splitter is not under `src/`. -/
def splitSentences (body : String) : List String :=
  (((splitChunksAux [] body.data).map trimChars).filter
      (fun l => !l.isEmpty)).map (fun l => String.mk l)

theorem splitChunksAux_flatten (l : List Char) :
    ∀ accRev : List Char, (splitChunksAux accRev l).flatten = accRev.reverse ++ l := by
  induction l with
  | nil => intro accRev; simp [splitChunksAux]
  | cons c rest ih =>
      intro accRev
      by_cases hb : (isTerm c && breakAfter rest &&
          !(c == '.' && abbrevTokens.contains (lastTokenRev accRev))) = true
      · simp only [splitChunksAux, hb, if_true]
        simp [ih []]
      · simp only [splitChunksAux, hb]
        rw [if_neg (by simp [hb])]
        simp [ih (c :: accRev)]

theorem splitChunksAux_no_term (l : List Char) (hl : ∀ c ∈ l, isTerm c = false) :
    ∀ accRev : List Char, splitChunksAux accRev l = [accRev.reverse ++ l] := by
  induction l with
  | nil => intro accRev; simp [splitChunksAux]
  | cons c rest ih =>
      intro accRev
      have hc : isTerm c = false := hl c (List.mem_cons_self c rest)
      have hrest : ∀ d ∈ rest, isTerm d = false := fun d hd => hl d (List.mem_cons_of_mem c hd)
      simp [splitChunksAux, hc, ih hrest (c :: accRev)]

/-! Trimming lemmas: `trimChars` output is a fixed point of `trimChars`. -/

theorem dropWhile_dropWhile (p : Char → Bool) (l : List Char) :
    (l.dropWhile p).dropWhile p = l.dropWhile p := by
  induction l with
  | nil => simp
  | cons c rest ih =>
      by_cases hc : p c
      · simp [List.dropWhile, hc, ih]
      · simp [List.dropWhile, hc]

theorem dropWhile_eq_self_of_prefix (p : Char → Bool) {u v : List Char}
    (hp : v <+: u) (hu : u.dropWhile p = u) : v.dropWhile p = v := by
  cases v with
  | nil => simp
  | cons c v' =>
      obtain ⟨t, ht⟩ := hp
      have hcu : ∃ u', u = c :: u' := ⟨v' ++ t, by simp [← ht]⟩
      obtain ⟨u', rfl⟩ := hcu
      have hc : p c = false := by
        by_contra hcontra
        have hc' : p c = true := by
          cases hpc : p c
          · exact absurd hpc hcontra
          · rfl
        rw [List.dropWhile_cons_of_pos hc'] at hu
        have hlen := congrArg List.length hu
        have hle := (List.dropWhile_suffix (l := u') p).length_le
        simp at hlen
        omega
      simp [List.dropWhile_cons_of_neg, hc]

theorem trimChars_trimChars (l : List Char) : trimChars (trimChars l) = trimChars l := by
  unfold trimChars
  set u := l.dropWhile isWsChar with hu
  have hu_self : u.dropWhile isWsChar = u := dropWhile_dropWhile isWsChar l
  set v := (u.reverse.dropWhile isWsChar).reverse with hv
  have hv_pre : v <+: u := by
    have hsuf : u.reverse.dropWhile isWsChar <:+ u.reverse := List.dropWhile_suffix isWsChar
    have hpre := List.reverse_prefix.mpr hsuf
    simpa [hv] using hpre
  have hv_self : v.dropWhile isWsChar = v := dropWhile_eq_self_of_prefix isWsChar hv_pre hu_self
  rw [hv_self]
  have : v.reverse.dropWhile isWsChar = v.reverse := by
    simp [hv, dropWhile_dropWhile]
  rw [this, List.reverse_reverse]

/-! ## Heuristic scorer (spec §4.2) -/

/-- Clamp a rational into the unit interval; the "monotonic bounded
function (e.g. capping and normalizing)" of §4.2. -/
def clamp01 (x : ℚ) : ℚ := max 0 (min 1 x)

/-- Count (possibly overlapping) occurrences of `pat` inside `l`. -/
def countOccs (pat : List Char) : List Char → ℕ
  | [] => 0
  | c :: rest =>
      (if pat.isPrefixOf (c :: rest) then 1 else 0) + countOccs pat rest

/-- Total occurrences of any of the given patterns inside `chars`. -/
def countAll (pats : List String) (chars : List Char) : ℕ :=
  (pats.map (fun p => countOccs p.data chars)).sum

/-- Modelled from the spec: the "sensational/loaded vocabulary" list of
§4.2; the rule constants of the Python scorer are policy configuration
(§9) not under `src/`. -/
def sensTerms : List String :=
  [("scam"), ("disaster"), ("shocking"), ("outrage"), ("slams"),
   ("destroyed"), ("fury"), ("chaos"), ("bombshell"), ("meltdown")]

/-- Modelled from the spec: the "clickbait-pattern phrase" list of §4.2. -/
def clickbaitPhrases : List String :=
  [("you will not believe"), ("what happens next"), ("this one trick"),
   ("doctors hate")]

/-- Modelled from the spec: the "attribution cues such as quoted sources
or named institutions" of §4.2. -/
def credCues : List String :=
  [("said"), ("according to"), ("reported"), ("announced"), ("stated")]

/-- An all-caps shouted token: at least three characters, contains a
letter, and every letter in it is upper case. -/
def isShoutToken (t : List Char) : Bool :=
  decide (3 ≤ t.length) && t.any (fun c => c.isAlpha) &&
    t.all (fun c => !c.isAlpha || c.isUpper)

/-- Modelled from the spec: the Heuristic Scorer of §4.2 — an ordered
battery of rules (sensational vocabulary, punctuation runs, excessive
capitalization, clickbait phrases, uncited statistics, attribution cues),
each contributing a bounded weight to an accumulator and a flag string
with its match count, squashed into `[0,1]` by capping; the Python scorer
(`scraper_step3_score.py`) is not under `src/`.  Concrete weights are the
tunable policy constants of §9. -/
def heurScore (text : String) : ℚ × List String :=
  let lower := text.data.map Char.toLower
  let toks := tokensAux [] text.data
  let sens := countAll sensTerms lower
  let punct := (text.data.filter (fun c => c == '!' || c == '?')).length
  let caps := (toks.filter isShoutToken).length
  let click := countAll clickbaitPhrases lower
  let stats := (toks.filter (fun t => t.any (fun c => c.isDigit))).length
  let cred := countAll credCues lower
  let score : ℚ :=
    (if 0 < sens then (3 : ℚ)/20 * ((min sens 4 : ℕ) : ℚ) else 0) +
    (if 0 < punct then (1 : ℚ)/10 * ((min punct 3 : ℕ) : ℚ) else 0) +
    (if 0 < caps then (1 : ℚ)/10 * ((min caps 3 : ℕ) : ℚ) else 0) +
    (if 0 < click then (1 : ℚ)/5 else 0) +
    (if 3 ≤ stats then (1 : ℚ)/10 else 0) +
    (if 0 < cred then -((3 : ℚ)/20) else 0)
  let flags : List String :=
    (if 0 < sens then [("sensational terms: ") ++ toString sens] else []) ++
    (if 0 < punct then [("punctuation runs: ") ++ toString punct] else []) ++
    (if 0 < caps then [("all-caps words: ") ++ toString caps] else []) ++
    (if 0 < click then [("clickbait phrases: ") ++ toString click] else []) ++
    (if 3 ≤ stats then [("uncited statistics: ") ++ toString stats] else []) ++
    (if 0 < cred then [("credibility cues present")] else [])
  (clamp01 score, flags)

theorem clamp01_nonneg (x : ℚ) : 0 ≤ clamp01 x := le_max_left 0 _

theorem clamp01_le_one (x : ℚ) : clamp01 x ≤ 1 :=
  max_le (by norm_num) (min_le_left 1 x)

theorem heurScore_mem_unit (text : String) :
    0 ≤ (heurScore text).1 ∧ (heurScore text).1 ≤ 1 := by
  constructor
  · exact clamp01_nonneg _
  · exact clamp01_le_one _

/-! ## Score blender (spec §4.4) -/

/-- Modelled from the spec: the heuristic-side blend weight, a tunable
constant (§4.4, §9); not derived per call.  The Python blender is not
under `src/`. -/
def wHeur : ℚ := 2/5

/-- Modelled from the spec: the ML-side blend weight (§4.4, §9). -/
def wMl : ℚ := 3/5

/-- Modelled from the spec: `blend(heur, ml | absent)` of §4.4 — a fixed
convex combination when `ml` is present, and `heur` unchanged when it is
absent; the Python blender is not under `src/`. -/
def blend (heur : ℚ) : Option ℚ → ℚ
  | none => heur
  | some m => wHeur * heur + wMl * m

theorem blend_mem_unit {h m : ℚ} (hh0 : 0 ≤ h) (hh1 : h ≤ 1)
    (hm0 : 0 ≤ m) (hm1 : m ≤ 1) : 0 ≤ blend h (some m) ∧ blend h (some m) ≤ 1 := by
  unfold blend wHeur wMl
  constructor
  · positivity
  · nlinarith

/-! ## Data model and inference driver (spec §3, §4.3, §4.5, §7) -/

/-- Modelled from the spec: the ML Sentence Classifier contract of §4.3 —
exactly one operation, `predict(sentence_text) -> probability in [0,1]`;
the trained artifact and its Python wrapper (`ml/infer.py`) are not under
`src/`.  Any conforming classifier is substitutable, so the type bundles
the contract's range guarantee. -/
structure MLModel where
  predict : String → ℚ
  predict_nonneg : ∀ s : String, 0 ≤ predict s
  predict_le_one : ∀ s : String, predict s ≤ 1

/-- Modelled from the spec: the error kinds of §7 produced by the core. -/
inductive CoreError where
  | validationError
  | modelUnavailable
  | inconsistentState
deriving DecidableEq

/-- Minimum accepted input length for on-demand scoring (§4.2, §7). -/
def minTextLen : ℕ := 120

/-- Modelled from the spec: the per-sentence record of §3 — text, stable
zero-based index, heuristic probability, optional model probability, and
blended probability (omitted when the model was not run, §7). -/
structure SentenceScore where
  text : String
  index : ℕ
  heur_prob : ℚ
  ml_prob : Option ℚ
  final_prob : Option ℚ

/-- Modelled from the spec: the `ScoredArticle` record of §3. -/
structure ScoredArticle where
  url : Option String
  source : Option String
  title : Option String
  published : Option String
  body : String
  word_count : ℕ
  fake_prob : ℚ
  heur_prob : ℚ
  ml_prob : Option ℚ
  final_prob : Option ℚ
  flags : List String
  sentences : List SentenceScore

/-- Arithmetic mean of a list of rationals (document-level `ml_prob` is
the mean of per-sentence ML scores, §4.4). -/
def mean (l : List ℚ) : ℚ := l.sum / (l.length : ℚ)

/-- Modelled from the spec: scoring of one sentence by the driver (§4.5):
heuristic probability always, model probability and blend only when the
model is loaded (§4.3, §7). -/
def scoreSentence (model : Option MLModel) (i : ℕ) (s : String) : SentenceScore :=
  let hp := (heurScore s).1
  match model with
  | none => ⟨s, i, hp, none, none⟩
  | some m =>
      let mp := m.predict s
      ⟨s, i, hp, some mp, some (blend hp (some mp))⟩

/-- Modelled from the spec: the document-level ML probability (§4.4) —
the mean of the per-sentence model scores when the body splits into
sentences, or a direct document-level model call otherwise. -/
def docMlOf (m : MLModel) (body : String) : ℚ :=
  if (splitSentences body).isEmpty then m.predict body
  else mean ((splitSentences body).map m.predict)

/-- Modelled from the spec: assembly of the `ScoredArticle` by the
on-demand driver (§4.5) for already-validated text: split, score the
document and each sentence heuristically, run the classifier per sentence
when available, aggregate the document `ml_prob`, and blend; when the
model is unavailable `ml_prob`/`final_prob` are omitted and only the
heuristic score is kept (§7). -/
def assembleScored (text : String) (model : Option MLModel) : ScoredArticle :=
  { url := none, source := none, title := none, published := none,
    body := text, word_count := wordCount text,
    fake_prob := (heurScore text).1, heur_prob := (heurScore text).1,
    ml_prob := model.map (fun m => docMlOf m text),
    final_prob := model.map (fun m => blend (heurScore text).1 (some (docMlOf m text))),
    flags := (heurScore text).2,
    sentences := (splitSentences text).enum.map (fun p => scoreSentence model p.1 p.2) }

/-- Modelled from the spec: the on-demand inference driver `score_text`
(§4.5) — reject input below the minimum length with a `ValidationError`
before any scoring work, otherwise assemble the scored article.  The
FastAPI driver (`api/main.py`) is not under `src/`. -/
def scoreText (text : String) (model : Option MLModel) : Except CoreError ScoredArticle :=
  if (trimChars text.data).length < minTextLen then .error .validationError
  else .ok (assembleScored text model)

/-! ## Batch inference (spec §4.5, §7) -/

/-- Modelled from the spec: batch enrichment of one stored article (§4.5)
— re-run the ML and blend stages from the stored `body` and the stored
heuristic score (`fake_prob`), overwriting `ml_prob`, `final_prob` and
`sentences` without recomputing the heuristic stage; a record missing its
`body` is reported (`InconsistentStateError`, §7) and left untouched so
the batch continues.  The Python batch driver (`ml/batch_infer.py`) is
not under `src/`. -/
def enrichArticle (m : MLModel) (a : ScoredArticle) : ScoredArticle :=
  if a.body = ("") then a
  else
    { a with ml_prob := some (docMlOf m a.body),
             final_prob := some (blend a.fake_prob (some (docMlOf m a.body))),
             sentences := (splitSentences a.body).enum.map
               (fun p => scoreSentence (some m) p.1 p.2) }

/-- Modelled from the spec: batch inference over a stored collection
(§4.5); each article is enriched independently. -/
def batchInfer (m : MLModel) (store : List ScoredArticle) : List ScoredArticle :=
  store.map (enrichArticle m)

/-! ## Relational semantics of one driver invocation (spec §4.2, §5, §8)

The determinism property of §8 is stated over a relation describing what
a single invocation of the driver may produce, so that "any two
invocations yield bit-identical results" is a theorem about the relation
rather than a definitional identity. -/

/-- Modelled from the spec: the observable behaviour of one on-demand
driver invocation — either the validation rejection or the assembled
scored article; no other outcome is possible (§4.5, §7: the heuristic
and blender stages never raise on their valid domain). -/
inductive ScoreEval : String → Option MLModel → Except CoreError ScoredArticle → Prop where
  | tooShort (text : String) (model : Option MLModel)
      (h : (trimChars text.data).length < minTextLen) :
      ScoreEval text model (.error .validationError)
  | scored (text : String) (model : Option MLModel)
      (h : ¬ (trimChars text.data).length < minTextLen) :
      ScoreEval text model (.ok (assembleScored text model))

theorem scoreText_eval (text : String) (model : Option MLModel) :
    ScoreEval text model (scoreText text model) := by
  unfold scoreText
  by_cases h : (trimChars text.data).length < minTextLen
  · rw [if_pos h]; exact ScoreEval.tooShort text model h
  · rw [if_neg h]; exact ScoreEval.scored text model h

/-! ## UI embeddings (from the TypeScript sources under `src/`) -/

/-- Nullish coalescing, the semantics of the TypeScript operator used by
`pickProb` and `displayProb` (`a ?? b`: keep `a` unless null/undefined). -/
def nullish {α : Type} (a b : Option α) : Option α :=
  match a with
  | some x => some x
  | none => b

/-- The sentence record consumed by `BiasHeatmap`
(`src/unnamed/part_000`, the component's `Sentence` type). -/
structure HeatSentence where
  text : String
  final_prob : Option ℚ
  bias_prob : Option ℚ
  ml_prob : Option ℚ
  heur_prob : Option ℚ

/-- Embedded from `src/unnamed/part_000` line 16: the heatmap's displayed
probability is the nullish-coalescing chain over the sentence scores,
defaulting to 0. -/
def pickProb (s : HeatSentence) : ℚ :=
  (nullish (nullish (nullish s.final_prob s.bias_prob) s.ml_prob) s.heur_prob).getD 0

/-- An inline CSS style, as produced by `styleForProb`. -/
structure CssStyle where
  backgroundColor : String
  color : String
  border : String
deriving DecidableEq

/-- Embedded from `src/unnamed/part_000` lines 21-33: four discrete
colour bands chosen by the probability. -/
def styleForProb (p : ℚ) : CssStyle :=
  if p < 1/4 then
    ⟨("hsl(120 60% 22% / 0.28)"), ("hsl(120 40% 88% / 0.98)"),
     ("1px solid hsl(120 50% 40% / 0.35)")⟩
  else if p < 1/2 then
    ⟨("hsl(60 70% 22% / 0.32)"), ("hsl(60 40% 90% / 0.98)"),
     ("1px solid hsl(60 55% 45% / 0.35)")⟩
  else if p < 3/4 then
    ⟨("hsl(30 70% 20% / 0.34)"), ("hsl(30 50% 92% / 0.98)"),
     ("1px solid hsl(30 60% 45% / 0.35)")⟩
  else
    ⟨("hsl(0 75% 18% / 0.36)"), ("hsl(0 55% 92% / 0.98)"),
     ("1px solid hsl(0 60% 45% / 0.35)")⟩

/-- The lowest-bias (green) band of the heatmap, the `p < 0.25` branch of
`styleForProb`. -/
def greenBand : CssStyle :=
  ⟨("hsl(120 60% 22% / 0.28)"), ("hsl(120 40% 88% / 0.98)"),
   ("1px solid hsl(120 50% 40% / 0.35)")⟩

/-- Embedded from `src/unnamed/part_000` lines 50-62: `BiasHeatmap`
renders nothing for an empty list, otherwise one styled span per
sentence, in order, carrying its picked probability. -/
def renderHeatmap (ss : List HeatSentence) : Option (List (String × ℚ × CssStyle)) :=
  if ss.isEmpty then none
  else some (ss.map (fun s => (s.text, pickProb s, styleForProb (pickProb s))))

/-- Bridge from an API sentence record to the heatmap component's input:
the JSON for a scored sentence carries `heur_prob` always and never the
legacy `bias_prob` field. -/
def toHeatSentence (s : SentenceScore) : HeatSentence :=
  ⟨s.text, s.final_prob, none, s.ml_prob, some s.heur_prob⟩

/-- Embedded from `src/web/src/app/check/page.tsx` line 58: the analyze
button is disabled while the trimmed text is shorter than 120
characters. -/
def textTooShort (text : String) : Bool :=
  decide ((trimChars text.data).length < 120)

/-- Embedded from `src/web/src/app/check/page.tsx` line 93: the overall
displayed score is `result?.final_prob ?? result?.fake_prob ?? 0`. -/
def displayProb (r : Option ScoredArticle) : ℚ :=
  (nullish (r.bind (fun a => a.final_prob)) (r.map (fun a => a.fake_prob))).getD 0

/-! ## Feed pagination state machine (from `src/unnamed/part_001` and
`src/web/src/app/page.tsx`) -/

/-- The pagination-relevant state of the feed page: current page, page
size, and the total reported by the last fetch. -/
structure FeedState where
  page : ℕ
  pageSize : ℕ
  total : ℕ
deriving DecidableEq

/-- Embedded from `src/unnamed/part_001` line 46 and
`src/web/src/app/page.tsx` line 120:
`totalPages = Math.max(1, Math.ceil(total / pageSize))`. -/
def totalPagesOf (s : FeedState) : ℕ :=
  max 1 ((s.total + s.pageSize - 1) / s.pageSize)

/-- The page sizes offered by the two feed pages' selects (5/10/20/50 in
`page.tsx`, 10/20/30/50 in `part_001`). -/
def pageSizeOptions : List ℕ := [5, 10, 20, 30, 50]

/-- Embedded from the feed pages' event handlers: Prev and Next are only
clickable when enabled (`disabled={page <= 1}` resp.
`disabled={page >= totalPages}`) and clamp with `Math.max(1, page-1)`
resp. `Math.min(totalPages, page+1)`; filter and page-size changes and
Reset jump back to page 1; a completed fetch overwrites `total` (the
error path stores 0). -/
inductive FeedStep : FeedState → FeedState → Prop where
  | prevClick (s : FeedState) (henabled : 1 < s.page) :
      FeedStep s { s with page := max 1 (s.page - 1) }
  | nextClick (s : FeedState) (henabled : s.page < totalPagesOf s) :
      FeedStep s { s with page := min (totalPagesOf s) (s.page + 1) }
  | changePageSize (s : FeedState) (n : ℕ) (hn : n ∈ pageSizeOptions) :
      FeedStep s { s with pageSize := n, page := 1 }
  | filterChange (s : FeedState) :
      FeedStep s { s with page := 1 }
  | resetClick (s : FeedState) :
      FeedStep s { page := 1, pageSize := 20, total := s.total }
  | fetchTotal (s : FeedState) (t : ℕ) :
      FeedStep s { s with total := t }

/-- Initial state of the feed page in `src/unnamed/part_001`:
`page = 1`, `pageSize = 20`, nothing fetched yet. -/
def feedInit : FeedState := ⟨1, 20, 0⟩

/-- States the feed page can actually be in. -/
def FeedReachable (s : FeedState) : Prop :=
  Relation.ReflTransGen FeedStep feedInit s

/-! ## Claim theorems -/

/-- C2 (counterexample): on the specification's own example text the
whitespace-delimited token count is not 13 — splitting
`"Officials announced a plan. Critics called it a disaster and a scam,
scam, scam!"` on whitespace yields 14 tokens, so the claimed value 13 is
false. -/
theorem wordCount_example_ne_13 : wordCount exampleBody ≠ 13 := by decide

/-- C2 (amended): `word_count` equals the number of whitespace-delimited
tokens of the body — the number of maximal non-whitespace runs — and on
the specification's example text this count is 14 (not 13). -/
theorem wordCount_tokens :
    (∀ body : String, wordCount body = countRuns true body.data) ∧
    wordCount exampleBody = 14 := by
  refine ⟨wordCount_eq_countRuns, ?_⟩
  decide

/-- C9: the heatmap's displayed probability follows the fixed fallback
order `final_prob ?? bias_prob ?? ml_prob ?? heur_prob ?? 0` — it is the
first present-and-non-null score in that order, equivalently the head of
the flattened score list with default 0 — and a sentence carrying no
score fields at all is displayed with probability 0, which falls in the
lowest-bias (green, `p < 0.25`) band. -/
theorem pickProb_fallback :
    (∀ s : HeatSentence,
       pickProb s = ([s.final_prob, s.bias_prob, s.ml_prob, s.heur_prob].reduceOption).headD 0)
    ∧ (∀ s : HeatSentence,
         s.final_prob = none → s.bias_prob = none → s.ml_prob = none → s.heur_prob = none →
           pickProb s = 0 ∧ styleForProb (pickProb s) = greenBand) := by
  constructor
  · rintro ⟨t, f, b, m, h⟩
    cases f <;> cases b <;> cases m <;> cases h <;>
      simp [pickProb, nullish, List.reduceOption]
  · intro s h1 h2 h3 h4
    have hp : pickProb s = 0 := by simp [pickProb, nullish, h1, h2, h3, h4]
    refine ⟨hp, ?_⟩
    rw [hp]
    norm_num [styleForProb, greenBand]

/-- C9 (witness): a sentence with every score field absent is rendered
with probability 0 in the green band. -/
theorem pickProb_fallback_spot :
    pickProb ⟨("s"), none, none, none, none⟩ = 0 ∧
      styleForProb (pickProb ⟨("s"), none, none, none, none⟩) = greenBand :=
  pickProb_fallback.2 ⟨("s"), none, none, none, none⟩ rfl rfl rfl rfl

/-- C10 (counterexample): the pagination invariant `page ≤ totalPages`
does not always hold — from the initial feed state, fetching a total of
100, clicking Next, and then a fetch that stores total 0 (the code's
error path) reaches the state `page = 2, pageSize = 20, total = 0`,
whose `totalPages` is 1 < 2. -/
theorem feed_page_can_exceed_totalPages :
    FeedReachable ⟨2, 20, 0⟩ ∧ totalPagesOf ⟨2, 20, 0⟩ < 2 := by
  constructor
  · have h1 : FeedStep ⟨1, 20, 0⟩ ⟨1, 20, 100⟩ := FeedStep.fetchTotal ⟨1, 20, 0⟩ 100
    have h2 : FeedStep ⟨1, 20, 100⟩ ⟨2, 20, 100⟩ :=
      FeedStep.nextClick ⟨1, 20, 100⟩ (by decide)
    have h3 : FeedStep ⟨2, 20, 100⟩ ⟨2, 20, 0⟩ := FeedStep.fetchTotal ⟨2, 20, 100⟩ 0
    exact Relation.ReflTransGen.head h1 (Relation.ReflTransGen.head h2
      (Relation.ReflTransGen.single h3))
  · decide

/-- C10 (amended): `totalPages = max(1, ceil(total / pageSize))` is at
least 1 even when `total` is 0; every reachable feed state has
`1 ≤ page`; and every user-interface transition that leaves the fetched
`total` unchanged (Prev and Next, which clamp to the bounds and are
disabled there, plus filter/page-size/reset, which jump to page 1)
preserves `1 ≤ page ≤ totalPages`.  The invariant can only be broken by
a fetch that lowers `total` underneath the current page, as the
counterexample shows. -/
theorem feed_pagination_amended :
    (∀ s : FeedState, 1 ≤ totalPagesOf s)
    ∧ (∀ s : FeedState, FeedReachable s → 1 ≤ s.page)
    ∧ (∀ s s' : FeedState, FeedStep s s' → s'.total = s.total →
         1 ≤ s.page → s.page ≤ totalPagesOf s →
           1 ≤ s'.page ∧ s'.page ≤ totalPagesOf s') := by
  have htp : ∀ s : FeedState, 1 ≤ totalPagesOf s := fun s => le_max_left 1 _
  have hstep : ∀ s s' : FeedState, FeedStep s s' → 1 ≤ s.page → 1 ≤ s'.page := by
    intro s s' h hs
    cases h with
    | prevClick henabled => exact le_max_left 1 _
    | nextClick henabled => exact le_min (htp s) (by omega)
    | changePageSize n hn => exact le_refl 1
    | filterChange => exact le_refl 1
    | resetClick => exact le_refl 1
    | fetchTotal t => exact hs
  refine ⟨htp, ?_, ?_⟩
  · intro s h
    induction h with
    | refl => exact le_refl 1
    | tail hsteps hlast ih => exact hstep _ _ hlast ih
  · intro s s' h htotal h1 h2
    cases h with
    | prevClick henabled =>
        refine ⟨le_max_left 1 _, ?_⟩
        have heq : totalPagesOf { s with page := max 1 (s.page - 1) } = totalPagesOf s := rfl
        rw [heq]
        exact max_le (htp s) (le_trans (Nat.sub_le _ _) h2)
    | nextClick henabled =>
        refine ⟨le_min (htp s) (by omega), ?_⟩
        have heq : totalPagesOf { s with page := min (totalPagesOf s) (s.page + 1) }
            = totalPagesOf s := rfl
        rw [heq]
        exact min_le_left _ _
    | changePageSize n hn => exact ⟨le_refl 1, htp _⟩
    | filterChange => exact ⟨le_refl 1, htp _⟩
    | resetClick => exact ⟨le_refl 1, htp _⟩
    | fetchTotal t =>
        have ht : t = s.total := htotal
        subst ht
        exact ⟨h1, h2⟩

/-- C10 (witness): from the state `page = 1, pageSize = 20, total = 100`
a Next click preserves the invariant, landing on page 2 of 5. -/
theorem feed_pagination_amended_spot :
    1 ≤ (⟨2, 20, 100⟩ : FeedState).page ∧
      (⟨2, 20, 100⟩ : FeedState).page ≤ totalPagesOf ⟨2, 20, 100⟩ :=
  feed_pagination_amended.2.2 ⟨1, 20, 100⟩ ⟨2, 20, 100⟩
    (FeedStep.nextClick ⟨1, 20, 100⟩ (by decide)) rfl (by decide) (by decide)

/-- C8: the sentence splitter is a total function (it is defined by
structural recursion, so it never raises); the pre-trim chunks
concatenate back to the body, so sentences appear in document order;
every emitted sentence is non-empty and a fixed point of trimming; the
empty body yields the empty sequence; and a body with no terminal
punctuation degrades to either the empty sequence or the single trimmed
body. -/
theorem splitSentences_contract :
    ∀ body : String,
      (splitChunksAux [] body.data).flatten = body.data ∧
      (∀ s ∈ splitSentences body, s.data ≠ [] ∧ trimChars s.data = s.data) ∧
      (body = ("") → splitSentences body = []) ∧
      ((∀ c ∈ body.data, isTerm c = false) →
         splitSentences body = [] ∨
           splitSentences body = [String.mk (trimChars body.data)]) := by
  intro body
  refine ⟨by simpa using splitChunksAux_flatten body.data [], ?_, ?_, ?_⟩
  · intro s hs
    unfold splitSentences at hs
    obtain ⟨l, hl, rfl⟩ := List.mem_map.1 hs
    obtain ⟨hl', hne⟩ := List.mem_filter.1 hl
    obtain ⟨ch, _, rfl⟩ := List.mem_map.1 hl'
    refine ⟨?_, trimChars_trimChars ch⟩
    simpa using hne
  · intro h
    subst h
    rfl
  · intro hno
    have hch := splitChunksAux_no_term body.data hno []
    by_cases he : (trimChars body.data).isEmpty
    · left
      simp [splitSentences, hch, he]
    · right
      simp [splitSentences, hch, he]

/-- C8 (witness): the empty body splits to nothing, and a nonempty body
with no terminal punctuation degrades to the single trimmed sentence. -/
theorem splitSentences_contract_spot :
    splitSentences ("") = [] ∧
      (splitSentences ("hello world") = [] ∨
        splitSentences ("hello world") = [String.mk (trimChars ("hello world").data)]) :=
  ⟨(splitSentences_contract ("")).2.2.1 rfl,
   (splitSentences_contract ("hello world")).2.2.2 (by decide)⟩

/-- C7: determinism of the scorer and the full pipeline.  `ScoreEval`
relates an input text and model artifact to the observable outcome of one
driver invocation; any two invocations on the same text and artifact are
related to the same outcome — the same probabilities and the same flag
list, since both are fields of the single possible `ScoredArticle` — and
the executable driver `scoreText` (whose heuristic stage `heurScore` is a
pure function of the text, with no external state or randomness) realises
the relation. -/
theorem scoreEval_deterministic :
    (∀ (t : String) (m : Option MLModel) (o₁ o₂ : Except CoreError ScoredArticle),
       ScoreEval t m o₁ → ScoreEval t m o₂ → o₁ = o₂)
    ∧ (∀ (t : String) (m : Option MLModel), ScoreEval t m (scoreText t m)) := by
  constructor
  · intro t m o₁ o₂ h₁ h₂
    cases h₁ with
    | tooShort h =>
        cases h₂ with
        | tooShort _ => rfl
        | scored h' => exact absurd h h'
    | scored h =>
        cases h₂ with
        | tooShort h' => exact absurd h' h
        | scored _ => rfl
  · exact scoreText_eval

/-- C7 (witness): two invocations on the empty text (both rejected by
validation) produce the same outcome. -/
theorem scoreEval_deterministic_spot :
    (Except.error CoreError.validationError : Except CoreError ScoredArticle) =
      Except.error CoreError.validationError :=
  scoreEval_deterministic.1 ("") none _ _
    (ScoreEval.tooShort ("") none (by decide))
    (ScoreEval.tooShort ("") none (by decide))

/-- C4: the blend is monotone in each argument — raising the ML score
with the heuristic fixed, or the heuristic with the ML fixed (also in the
model-absent case), never lowers the result — and it is the fixed convex
combination `wHeur * heur + wMl * ml` with constant non-negative weights
summing to 1, not derived per call. -/
theorem blend_monotone_convex :
    (∀ h m₁ m₂ : ℚ, m₁ ≤ m₂ → blend h (some m₁) ≤ blend h (some m₂))
    ∧ (∀ h₁ h₂ m : ℚ, h₁ ≤ h₂ → blend h₁ (some m) ≤ blend h₂ (some m))
    ∧ (∀ h₁ h₂ : ℚ, h₁ ≤ h₂ → blend h₁ none ≤ blend h₂ none)
    ∧ (∀ h m : ℚ, blend h (some m) = wHeur * h + wMl * m)
    ∧ wHeur + wMl = 1 ∧ 0 ≤ wHeur ∧ 0 ≤ wMl := by
  refine ⟨?_, ?_, ?_, fun h m => rfl, by norm_num [wHeur, wMl],
    by norm_num [wHeur], by norm_num [wMl]⟩
  · intro h m₁ m₂ hm
    simp only [blend, wHeur, wMl]
    linarith
  · intro h₁ h₂ m hh
    simp only [blend, wHeur, wMl]
    linarith
  · intro h₁ h₂ hh
    simpa [blend] using hh

/-- C4 (witness): concrete monotonicity instances of the blend. -/
theorem blend_monotone_convex_spot :
    blend 0 (some (1/4)) ≤ blend 0 (some (1/2)) ∧ blend 0 none ≤ blend 1 none :=
  ⟨blend_monotone_convex.1 0 (1/4) (1/2) (by norm_num),
   blend_monotone_convex.2.2.1 0 1 (by norm_num)⟩

/-- C3: any on-demand input whose trimmed text is shorter than the
120-character minimum (in particular text that is empty after trimming)
is rejected by the driver with a `ValidationError` — the result carries
no scored fields, so no heuristic, ML or blend output is produced — and
the UI's `textTooShort` guard flags exactly such text. -/
theorem scoreText_rejects_short :
    ∀ (text : String) (model : Option MLModel),
      (trimChars text.data).length < minTextLen →
        scoreText text model = .error .validationError ∧ textTooShort text = true := by
  intro text model h
  constructor
  · unfold scoreText
    rw [if_pos h]
  · simpa [textTooShort, minTextLen] using h

/-- C3 (witness): a 50-character submission is rejected before scoring. -/
theorem scoreText_rejects_short_spot :
    scoreText ("Fifty chars of text, reported briefly here today.") none
        = .error .validationError ∧
      textTooShort ("Fifty chars of text, reported briefly here today.") = true :=
  scoreText_rejects_short ("Fifty chars of text, reported briefly here today.") none
    (by decide)

/-! ## Helper lemmas for the driver theorems -/

theorem mean_mem_unit {l : List ℚ} (hne : l ≠ [])
    (h0 : ∀ x ∈ l, 0 ≤ x) (h1 : ∀ x ∈ l, x ≤ 1) :
    0 ≤ mean l ∧ mean l ≤ 1 := by
  have hlen : 0 < (l.length : ℚ) := by
    have := List.length_pos.mpr hne
    exact_mod_cast this
  have hsum0 : 0 ≤ l.sum := List.sum_nonneg h0
  have hsum1 : l.sum ≤ (l.length : ℚ) := by
    have := List.sum_le_card_nsmul l 1 h1
    simpa [nsmul_eq_mul] using this
  constructor
  · exact div_nonneg hsum0 (le_of_lt hlen)
  · rw [mean, div_le_one hlen]
    exact hsum1

/-- Unit-interval membership for a rational probability. -/
def inUnit (q : ℚ) : Prop := 0 ≤ q ∧ q ≤ 1

/-- Unit-interval membership for an optional probability (an absent score
is vacuously in range). -/
def optInUnit : Option ℚ → Prop
  | none => True
  | some q => inUnit q

/-- Every probability field of a scored article — document and
per-sentence — lies in `[0,1]`. -/
def probsInRange (a : ScoredArticle) : Prop :=
  inUnit a.fake_prob ∧ inUnit a.heur_prob ∧
    optInUnit a.ml_prob ∧ optInUnit a.final_prob ∧
    ∀ s ∈ a.sentences, inUnit s.heur_prob ∧ optInUnit s.ml_prob ∧ optInUnit s.final_prob

theorem scoreSentence_range (model : Option MLModel) (i : ℕ) (s : String) :
    inUnit (scoreSentence model i s).heur_prob ∧
      optInUnit (scoreSentence model i s).ml_prob ∧
      optInUnit (scoreSentence model i s).final_prob := by
  cases model with
  | none =>
      exact ⟨heurScore_mem_unit s, trivial, trivial⟩
  | some m =>
      refine ⟨heurScore_mem_unit s, ?_, ?_⟩
      · exact ⟨m.predict_nonneg s, m.predict_le_one s⟩
      · exact blend_mem_unit (heurScore_mem_unit s).1 (heurScore_mem_unit s).2
          (m.predict_nonneg s) (m.predict_le_one s)

theorem docMl_range (text : String) (m : MLModel) : inUnit (docMlOf m text) := by
  unfold docMlOf
  by_cases he : (splitSentences text).isEmpty
  · rw [if_pos he]
    exact ⟨m.predict_nonneg text, m.predict_le_one text⟩
  · rw [if_neg he]
    have hne : (splitSentences text).map m.predict ≠ [] := by
      intro hcon
      exact he (by simpa [List.isEmpty_iff, List.map_eq_nil_iff] using hcon)
    refine mean_mem_unit hne ?_ ?_
    · intro x hx
      obtain ⟨sent, _, rfl⟩ := List.mem_map.1 hx
      exact m.predict_nonneg sent
    · intro x hx
      obtain ⟨sent, _, rfl⟩ := List.mem_map.1 hx
      exact m.predict_le_one sent

theorem assembleScored_range (text : String) (model : Option MLModel) :
    probsInRange (assembleScored text model) := by
  refine ⟨heurScore_mem_unit text, heurScore_mem_unit text, ?_, ?_, ?_⟩
  · show optInUnit (model.map _)
    cases model with
    | none => trivial
    | some m => exact docMl_range text m
  · show optInUnit (model.map _)
    cases model with
    | none => trivial
    | some m =>
        exact blend_mem_unit (heurScore_mem_unit text).1 (heurScore_mem_unit text).2
          (docMl_range text m).1 (docMl_range text m).2
  · intro s hs
    simp only [assembleScored] at hs
    obtain ⟨⟨i, str⟩, _, rfl⟩ := List.mem_map.1 hs
    exact scoreSentence_range model i str

/-- A valid example text (more than 120 characters after trimming), used
to witness the driver theorems on a concrete input. -/
def validExample : String :=
  "The committee reviewed the proposal in detail and published a careful, balanced report that cited several independent sources today."

/-- C5: for every valid input and every conforming model artifact (or
none), each probability the pipeline produces — `fake_prob`,
`heur_prob`, document `ml_prob` and `final_prob`, and every sentence's
`heur_prob`, `ml_prob` and `final_prob` — lies in `[0,1]`. -/
theorem scoreText_probs_in_range :
    ∀ (text : String) (model : Option MLModel),
      ¬ (trimChars text.data).length < minTextLen →
        ∃ out : ScoredArticle,
          scoreText text model = .ok out ∧ probsInRange out := by
  intro text model h
  refine ⟨assembleScored text model, ?_, assembleScored_range text model⟩
  unfold scoreText
  rw [if_neg h]

/-- C5 (witness): the range invariant on a concrete valid input scored
without a model. -/
theorem scoreText_probs_in_range_spot :
    ∃ out : ScoredArticle,
      scoreText validExample none = .ok out ∧ probsInRange out :=
  scoreText_probs_in_range validExample none (by decide)

/-- C1: when the ML model is unavailable the blend returns the heuristic
probability unchanged (`blend h none = h`), and the driver's degraded
result keeps `heur_prob` (equal to `fake_prob`), omits the document and
sentence `ml_prob`/`final_prob` fields rather than failing the request,
and therefore displays the heuristic probability: the check page's
`displayProb` falls back to `fake_prob` and the heatmap's `pickProb`
falls back to each sentence's `heur_prob`. -/
theorem degraded_blend_keeps_heuristic :
    (∀ h : ℚ, blend h none = h) ∧
    ∀ text : String, minTextLen ≤ (trimChars text.data).length →
      ∃ out : ScoredArticle, scoreText text none = .ok out ∧
        out.ml_prob = none ∧ out.final_prob = none ∧
        out.heur_prob = out.fake_prob ∧
        displayProb (some out) = out.heur_prob ∧
        ∀ s ∈ out.sentences, s.ml_prob = none ∧ s.final_prob = none ∧
          pickProb (toHeatSentence s) = s.heur_prob := by
  refine ⟨fun h => rfl, ?_⟩
  intro text h
  refine ⟨assembleScored text none, ?_, rfl, rfl, rfl, rfl, ?_⟩
  · unfold scoreText
    rw [if_neg (by omega)]
  · intro s hs
    simp only [assembleScored] at hs
    obtain ⟨⟨i, str⟩, _, rfl⟩ := List.mem_map.1 hs
    exact ⟨rfl, rfl, rfl⟩

/-- C1 (witness): the degradation behaviour on a concrete valid input. -/
theorem degraded_blend_keeps_heuristic_spot :
    blend (1/2) none = 1/2 ∧
      ∃ out : ScoredArticle, scoreText validExample none = .ok out ∧
        out.ml_prob = none ∧ out.final_prob = none ∧
        out.heur_prob = out.fake_prob ∧
        displayProb (some out) = out.heur_prob ∧
        ∀ s ∈ out.sentences, s.ml_prob = none ∧ s.final_prob = none ∧
          pickProb (toHeatSentence s) = s.heur_prob :=
  ⟨degraded_blend_keeps_heuristic.1 (1/2),
   degraded_blend_keeps_heuristic.2 validExample (by decide)⟩

/-- C6: batch inference is idempotent.  Enriching an article overwrites
its `ml_prob`, `final_prob` and `sentences` fields from its unchanged
`body` and stored heuristic score rather than appending, so enriching an
already-enriched article reproduces it exactly, and running the batch
twice over a stored collection with no intervening changes produces the
identical list of output records. -/
theorem batchInfer_idempotent :
    (∀ (m : MLModel) (a : ScoredArticle),
       enrichArticle m (enrichArticle m a) = enrichArticle m a)
    ∧ ∀ (m : MLModel) (store : List ScoredArticle),
        batchInfer m (batchInfer m store) = batchInfer m store := by
  have henrich : ∀ (m : MLModel) (a : ScoredArticle),
      enrichArticle m (enrichArticle m a) = enrichArticle m a := by
    intro m a
    by_cases hb : a.body = ("")
    · have ha : enrichArticle m a = a := by
        unfold enrichArticle
        rw [if_pos hb]
      rw [ha, ha]
    · have ha : enrichArticle m a =
        { a with ml_prob := some (docMlOf m a.body),
                 final_prob := some (blend a.fake_prob (some (docMlOf m a.body))),
                 sentences := (splitSentences a.body).enum.map
                   (fun p => scoreSentence (some m) p.1 p.2) } := by
        unfold enrichArticle
        rw [if_neg hb]
      rw [ha]
      unfold enrichArticle
      dsimp only
      rw [if_neg hb]
  refine ⟨henrich, ?_⟩
  intro m store
  induction store with
  | nil => rfl
  | cons a rest ih =>
      simp only [batchInfer, List.map_cons] at ih ⊢
      rw [henrich m a]
      exact congrArg _ (by simpa [batchInfer] using ih)

/-- A trivially conforming classifier, used to exercise the batch
theorems on a concrete artifact. -/
def halfModel : MLModel :=
  ⟨fun _ => 1/2, fun _ => by norm_num, fun _ => by norm_num⟩

/-- C6 (witness): batch idempotence at a concrete model and a concrete
one-article store. -/
theorem batchInfer_idempotent_spot :
    batchInfer halfModel (batchInfer halfModel
        [assembleScored validExample none])
      = batchInfer halfModel [assembleScored validExample none] :=
  batchInfer_idempotent.2 halfModel [assembleScored validExample none]

end NewsScraper
